import Mathlib

/-!
Verification of the chunked PDF-translation pipeline
(`pdf_processor.py`, `agent.py`, `pdf_translator.py`).

Text is modelled as `List Char` (one element per Unicode code point, matching
Python's `str` indexing and `len`).  Each Python function used by the claims is
embedded as an executable Lean definition; the external completion service and
the translation agent are abstracted as explicit function parameters.
-/

namespace Translator

/-- Python's whitespace class: the characters matched by `\s` in `re` patterns
and stripped by `str.strip()`.  Covers ASCII whitespace, the C1 separators,
NEL, NBSP and the Unicode space/line/paragraph separators. -/
def isPySpace (c : Char) : Bool :=
  c = ' ' || c = '\t' || c = '\n' || c = '\r' || c.toNat = 11 || c.toNat = 12 ||
  c.toNat = 0x1c || c.toNat = 0x1d || c.toNat = 0x1e || c.toNat = 0x1f ||
  c.toNat = 0x85 || c.toNat = 0xa0 || c.toNat = 0x1680 ||
  (0x2000 ≤ c.toNat && c.toNat ≤ 0x200a) ||
  c.toNat = 0x2028 || c.toNat = 0x2029 || c.toNat = 0x202f ||
  c.toNat = 0x205f || c.toNat = 0x3000

/-- The decimal digits matched by `\d` in `re.sub(r"^\s*\d+\s*$", ...)`.
ASCII and fullwidth forms are modelled; other Unicode decimal digits do not
occur in the texts considered. -/
def isPyDigit (c : Char) : Bool :=
  (48 ≤ c.toNat && c.toNat ≤ 57) || (0xff10 ≤ c.toNat && c.toNat ≤ 0xff19)

/-- The character class `[a-zA-Z]` of `re.sub(r"\s+[a-zA-Z]\s+", " ", ...)`. -/
def isAsciiLetter (c : Char) : Bool :=
  ('a' ≤ c && c ≤ 'z') || ('A' ≤ c && c ≤ 'Z')

/-- The sentence-terminator class `[.!?。！？]` of
`re.split(r"[.!?。！？]\s*", text)` in `split_text_for_translation`. -/
def isTerm (c : Char) : Bool :=
  c = '.' || c = '!' || c = '?' || c = '。' || c = '！' || c = '？'

/-- Drop leading Python whitespace (`str.lstrip()`). -/
def dropWs (l : List Char) : List Char := l.dropWhile isPySpace

/-- Python `str.strip()`: remove leading and trailing whitespace. -/
def pyStrip (l : List Char) : List Char :=
  ((dropWs l).reverse.dropWhile isPySpace).reverse

/-- `re.sub(r"\s+", " ", text)`: every maximal whitespace run becomes a single
space.  The `Bool` flag records whether the scanner is inside a run whose
single replacement space has already been emitted. -/
def collapseAux : Bool → List Char → List Char
  | _, [] => []
  | inWs, c :: cs =>
    if isPySpace c then
      if inWs then collapseAux true cs else ' ' :: collapseAux true cs
    else c :: collapseAux false cs

/-- First step of `PDFProcessor._clean_text`: collapse whitespace runs. -/
def collapseWs (l : List Char) : List Char := collapseAux false l

/-- Index of the last newline in a list, if any. -/
def lastNewlineIdx (l : List Char) : Option Nat :=
  (l.enum.filter (fun p => p.2 = '\n')).getLast?.map Prod.fst

/-- Attempted match of `^\s*\d+\s*$` (MULTILINE) at the current position,
returning the number of characters the match consumes.  The leading `\s*` and
the `\d+` are forced to the maximal runs (whitespace and digits are disjoint);
the trailing `\s*` backtracks until `$` holds, i.e. until end of string or a
position holding a newline. -/
def pageMatchLen (l : List Char) : Option Nat :=
  let w := (l.takeWhile isPySpace).length
  let l1 := l.drop w
  let d := (l1.takeWhile isPyDigit).length
  if d = 0 then none
  else
    let l2 := l1.drop d
    let t := (l2.takeWhile isPySpace).length
    if l2.drop t = [] then some (w + d + t)
    else
      match lastNewlineIdx (l2.takeWhile isPySpace) with
      | some j => some (w + d + j)
      | none => none

/-- Scanner for `re.sub(r"^\s*\d+\s*$", "", text, flags=re.MULTILINE)`:
at each line start attempt the anchored match and delete it, otherwise copy
the character.  `lineStart` tracks whether `^` holds at the current position
(start of input or directly after a newline); the fuel bounds recursion and
always suffices since every step consumes at least one character. -/
def stripPageGo (rec : Bool → List Char → List Char) :
    Bool → List Char → List Char
  | _, [] => []
  | lineStart, c :: cs =>
    if lineStart then
      match pageMatchLen (c :: cs) with
      | some k =>
        rec (((c :: cs).take k).getLast? == some '\n') ((c :: cs).drop k)
      | none => c :: rec (c == '\n') cs
    else c :: rec (c == '\n') cs

def stripPageAux : Nat → Bool → List Char → List Char
  | 0 => fun _ l => l
  | fuel + 1 => stripPageGo (stripPageAux fuel)

/-- Second step of `_clean_text`: remove page-number-only lines. -/
def stripPageNumbers (l : List Char) : List Char := stripPageAux l.length true l

/-- Attempted match of `\s+[a-zA-Z]\s+` at the current position: a nonempty
whitespace run, one ASCII letter, a nonempty whitespace run. -/
def isoMatchLen (l : List Char) : Option Nat :=
  let w := (l.takeWhile isPySpace).length
  if w = 0 then none
  else
    match l.drop w with
    | [] => none
    | c :: rest =>
      if isAsciiLetter c then
        let t := (rest.takeWhile isPySpace).length
        if t = 0 then none else some (w + 1 + t)
      else none

/-- Scanner for `re.sub(r"\s+[a-zA-Z]\s+", " ", text)`: each match is replaced
by a single space and scanning resumes after the match. -/
def removeIsolatedHit (rec : List Char → List Char) (c : Char) (cs : List Char) :
    Option Nat → List Char
  | some k => ' ' :: rec ((c :: cs).drop k)
  | none => c :: rec cs

def removeIsolatedGo (rec : List Char → List Char) : List Char → List Char
  | [] => []
  | c :: cs => removeIsolatedHit rec c cs (isoMatchLen (c :: cs))

def removeIsolatedAux : Nat → List Char → List Char
  | 0 => fun l => l
  | fuel + 1 => removeIsolatedGo (removeIsolatedAux fuel)

/-- Third step of `_clean_text`: drop isolated single letters. -/
def removeIsolatedChars (l : List Char) : List Char := removeIsolatedAux l.length l

/-- Scanner for `re.sub(r"\n\s*\n", "\n\n", text)`: a newline, a greedy
whitespace run backtracked to the last newline it contains, and that newline,
replaced by exactly two newlines. -/
def fixParaGo (rec : List Char → List Char) : List Char → List Char
  | [] => []
  | c :: cs =>
    if c = '\n' then
      match lastNewlineIdx (cs.takeWhile isPySpace) with
      | some j => '\n' :: '\n' :: rec (cs.drop (j + 1))
      | none => c :: rec cs
    else c :: rec cs

def fixParaAux : Nat → List Char → List Char
  | 0 => fun l => l
  | fuel + 1 => fixParaGo (fixParaAux fuel)

/-- Fourth step of `_clean_text`: normalize paragraph separators. -/
def fixParagraphs (l : List Char) : List Char := fixParaAux l.length l

/-- `PDFProcessor._clean_text`: the empty guard, then whitespace collapse,
page-number removal, isolated-letter removal, paragraph cleanup and a final
`strip()`. -/
def clean_text (l : List Char) : List Char :=
  if l = [] then []
  else pyStrip (fixParagraphs (removeIsolatedChars (stripPageNumbers (collapseWs l))))

/-- `re.split(r"[.!?。！？]\s*", text)`: pieces between delimiter matches,
where a delimiter is one terminator character plus the following whitespace
run.  `acc` holds the current piece reversed; the fuel always suffices since
every step consumes at least one character, and the fuel-exhausted case agrees
with the empty-input case. -/
def pySplitAux : Nat → List Char → List Char → List (List Char)
  | 0, acc, l => [acc.reverse ++ l]
  | _ + 1, acc, [] => [acc.reverse]
  | fuel + 1, acc, c :: cs =>
    if isTerm c then acc.reverse :: pySplitAux fuel [] (cs.dropWhile isPySpace)
    else pySplitAux fuel (c :: acc) cs

/-- The sentence split used by `split_text_for_translation`. -/
def pySplit (l : List Char) : List (List Char) := pySplitAux l.length [] l

/-- One iteration of the sentence-accumulation loop in
`split_text_for_translation`: strip the sentence, skip it when empty, flush
the buffer when it would overflow, otherwise join with `". "`. -/
def splitStep (max_chunk_size : Nat) (st : List (List Char) × List Char)
    (sentence : List Char) : List (List Char) × List Char :=
  let s := pyStrip sentence
  if s = [] then st
  else if st.2.length + s.length > max_chunk_size ∧ st.2 ≠ [] then
    (st.1 ++ [pyStrip st.2], s)
  else if st.2 ≠ [] then (st.1, st.2 ++ ('.' :: ' ' :: s))
  else (st.1, s)

/-- `PDFProcessor.split_text_for_translation`: return the text whole when it
fits, otherwise greedily pack stripped sentences into chunks joined by
`". "`, flushing the buffer (stripped) when the next sentence would overflow
it, and flushing the final nonempty buffer. -/
def split_text_for_translation (text : List Char) (max_chunk_size : Nat) :
    List (List Char) :=
  if text.length ≤ max_chunk_size then [text]
  else
    let st := (pySplit text).foldl (splitStep max_chunk_size) ([], [])
    if st.2 ≠ [] then st.1 ++ [pyStrip st.2] else st.1

/-- The characters that count as sentence content: everything except
whitespace and sentence terminators.  Filtering a chunk with `keepChar`
discards exactly the injected `". "` joiners together with the original
whitespace; filtering the input text with it keeps the non-whitespace
characters of the sentences (sentences never contain terminator characters). -/
def keepChar (c : Char) : Bool := !(isPySpace c) && !(isTerm c)

/-- The sentence content of a chunk list: each chunk filtered to its
`keepChar` characters, concatenated in order. -/
def chunkKeep (chunks : List (List Char)) : List Char :=
  (chunks.map (List.filter keepChar)).flatten

/-- A translation-outcome dictionary as built by `agent.py` and
`pdf_translator.py`.  Keys present in every such dictionary are plain fields;
keys that some dictionaries omit are `Option` fields (`none` = key absent). -/
structure TranslationResult where
  original : List Char
  translation : List Char
  status : List Char
  error : Option (List Char)
  model : Option (List Char)
  rtype : Option (List Char)
  chunk_index : Option Nat
  total_chunks : Option Nat
  attempt : Option Nat
  deriving Repr, DecidableEq

/-- The completion-service response visible to `translate_pdf_content`:
`status_code`, `output.text` and `message`. -/
structure ServiceResponse where
  status_code : Nat
  text : List Char
  message : List Char
  deriving Repr, DecidableEq

/-- One network call: either a raised exception (message) or a response. -/
def ServiceCall := List Char → Except (List Char) ServiceResponse

/-- The literal part of `pdf_translation_prompt_template` before `{text}`. -/
def pdfPromptHead : List Char :=
  ("\n你是一个专业的PDF文档翻译专家。请将以下PDF文本内容翻译成中文，要求：\n" ++
   "1. 保持原文的段落结构和格式\n" ++
   "2. 准确翻译专业术语和技术内容\n" ++
   "3. 保持文档的逻辑性和可读性\n" ++
   "4. 对于标题、章节名等，保持清晰的层次结构\n" ++
   "5. 对于表格、列表等内容，保持原有的格式信息\n" ++
   "\nPDF文本内容：\n").toList

/-- The literal part of `pdf_translation_prompt_template` after `{text}`. -/
def pdfPromptTail : List Char :=
  "\n\n请直接输出翻译结果，保持原文的段落结构：\n".toList

/-- The prompt built by `TranslationAgent.translate_pdf_content`: the PDF
template with the text substituted, plus the document-type suffix when a
context is given (Python truthiness: nonempty string). -/
def buildPdfPrompt (text context : List Char) : List Char :=
  if context ≠ [] then
    pdfPromptHead ++ text ++ pdfPromptTail ++ "\n\n文档类型：".toList ++ context
  else pdfPromptHead ++ text ++ pdfPromptTail

/-- `TranslationAgent.translate_pdf_content`: build the prompt, issue one
network call (`svc prompt`), and fold every outcome into a result dictionary:
status 200 gives a success result with the stripped response text, a non-200
response gives an error result with the service message, and a raised
exception is caught and gives an error result with the exception message.
The function is total: no failure mode escapes as an exception. -/
def translate_pdf_content (svc : ServiceCall) (text context : List Char) :
    TranslationResult :=
  match svc (buildPdfPrompt text context) with
  | .ok response =>
    if response.status_code = 200 then
      { original := text, translation := pyStrip response.text,
        status := "success".toList, error := none,
        model := some "qwen-max".toList, rtype := some "pdf_translation".toList,
        chunk_index := none, total_chunks := none, attempt := none }
    else
      { original := text, translation := [],
        status := "error".toList,
        error := some ("API调用失败: ".toList ++ response.message),
        model := none, rtype := none,
        chunk_index := none, total_chunks := none, attempt := none }
  | .error e =>
      { original := text, translation := [],
        status := "error".toList, error := some e,
        model := none, rtype := none,
        chunk_index := none, total_chunks := none, attempt := none }

/-- The synthetic outcome built by `PDFTranslator._translate_chunk_with_retry`
when every attempt failed.  Note: the source dictionary has no `attempt` key,
and its `translation` is the failure placeholder embedding the chunk index. -/
def exhaustedResult (chunk : List Char) (chunk_index total_chunks max_retries : Nat) :
    TranslationResult :=
  { original := chunk,
    translation := "[翻译失败 - 块 ".toList ++ (Nat.repr chunk_index).toList ++ "]".toList,
    status := "error".toList,
    error := some ("经过 ".toList ++ (Nat.repr max_retries).toList ++
                   " 次尝试后仍然失败".toList),
    model := none, rtype := none,
    chunk_index := some chunk_index, total_chunks := some total_chunks,
    attempt := none }

/-- The retry loop of `_translate_chunk_with_retry`, counting down the
remaining attempts (`remaining = max_retries - attempt`).  `agentCall j` is
the result of the j-th call to `translation_agent.translate_pdf_content`:
`.error` models an exception raised by the call (caught by the loop's
`except`), `.ok` a returned dictionary.  A returned dictionary gets
`chunk_index`, `total_chunks` and `attempt` attached; the loop returns it when
its status is success and otherwise continues to the next attempt. -/
def retryLoop (agentCall : Nat → Except (List Char) TranslationResult)
    (chunk : List Char) (chunk_index total_chunks max_retries : Nat) :
    Nat → TranslationResult
  | 0 => exhaustedResult chunk chunk_index total_chunks max_retries
  | remaining + 1 =>
    let attemptIdx := max_retries - (remaining + 1)
    match agentCall attemptIdx with
    | .error _ =>
        retryLoop agentCall chunk chunk_index total_chunks max_retries remaining
    | .ok result =>
      let r := { result with chunk_index := some chunk_index,
                             total_chunks := some total_chunks,
                             attempt := some (attemptIdx + 1) }
      if r.status = "success".toList then r
      else retryLoop agentCall chunk chunk_index total_chunks max_retries remaining

/-- `PDFTranslator._translate_chunk_with_retry`:
`for attempt in range(max_retries)` with early return on success, and the
synthetic exhausted outcome after the loop. -/
def translate_chunk_with_retry (agentCall : Nat → Except (List Char) TranslationResult)
    (max_retries : Nat) (chunk : List Char) (chunk_index total_chunks : Nat) :
    TranslationResult :=
  retryLoop agentCall chunk chunk_index total_chunks max_retries max_retries

/-- `PDFTranslator.translate_pdf_chunks_with_progress`: every chunk — with no
emptiness check — is translated with retry, in order, with 1-based index and
`total_chunks = len(text_chunks)`; each outcome is appended to the result
list.  `agent i j` is the result of the j-th agent call for the chunk at
0-based position i (the printing and inter-chunk sleeps are side effects with
no influence on the returned list). -/
def translate_pdf_chunks_with_progress
    (agent : Nat → Nat → Except (List Char) TranslationResult)
    (max_retries : Nat) (text_chunks : List (List Char)) : List TranslationResult :=
  text_chunks.enum.foldl
    (fun results ic =>
      results ++ [translate_chunk_with_retry (agent ic.1) max_retries ic.2
                    (ic.1 + 1) text_chunks.length])
    []

/-- `TranslationAgent.translate_pdf_chunks`: chunks whose `strip()` is empty
are skipped (no call, no outcome); other chunks get one direct
`translate_pdf_content` call (no retry) with `chunk_index`/`total_chunks`
attached, where `total_chunks = len(text_chunks)` counts every chunk,
including the skipped ones.  `svc i` is the network behavior of the call for
the chunk at 0-based position i. -/
def translate_pdf_chunks (svc : Nat → ServiceCall)
    (text_chunks : List (List Char)) (context : List Char) : List TranslationResult :=
  text_chunks.enum.foldl
    (fun results ic =>
      if pyStrip ic.2 ≠ [] then
        results ++ [{ translate_pdf_content (svc ic.1) ic.2 context with
                        chunk_index := some (ic.1 + 1),
                        total_chunks := some text_chunks.length }]
      else results)
    []

/-- `PDFTranslator._merge_translation_results`: in list order, append the
translation of a success outcome, or the original-text fallback block
`"[原文 - 块 N]:\n" + original` of a failed one, prefixing every block but the
first with the `"\n\n"` paragraph separator.  `N` is the outcome's
`chunk_index`, defaulting to position + 1 (`result.get("chunk_index", i+1)`).
`mergeStep` is one iteration of the accumulation loop. -/
def mergeStep (merged : List Char) (ir : Nat × TranslationResult) : List Char :=
  if ir.2.status = "success".toList then
    (if ir.1 > 0 then merged ++ "\n\n".toList else merged) ++ ir.2.translation
  else
    (if ir.1 > 0 then merged ++ "\n\n".toList else merged) ++
      "[原文 - 块 ".toList ++ (Nat.repr (ir.2.chunk_index.getD (ir.1 + 1))).toList ++
      "]:\n".toList ++ ir.2.original

/-- `PDFTranslator._merge_translation_results`: fold `mergeStep` over the
enumerated outcome list, starting from the empty string. -/
def merge_translation_results (results : List TranslationResult) : List Char :=
  results.enum.foldl mergeStep []

/-- Modelled from the spec (merger contract, for comparison with
`merge_translation_results`): the block contributed by one outcome — the
translation on success, otherwise the original chunk text prefixed by the
failure marker. -/
def specBlock (i : Nat) (r : TranslationResult) : List Char :=
  if r.status = "success".toList then r.translation
  else "[原文 - 块 ".toList ++ (Nat.repr (r.chunk_index.getD (i + 1))).toList ++
       "]:\n".toList ++ r.original

/-- Modelled from the spec (merger contract): adjacent blocks joined by the
blank-line paragraph separator. -/
def joinBlocks : List (List Char) → List Char
  | [] => []
  | [b] => b
  | b :: bs => b ++ "\n\n".toList ++ joinBlocks bs

/-- An agent call that fails: it raises, or returns a non-success result.
This is the condition under which the retry loop continues. -/
def agentFails (x : Except (List Char) TranslationResult) : Prop :=
  ∀ r : TranslationResult, x = Except.ok r → ¬ r.status = "success".toList

/-- A concrete successful agent result, used by witnesses. -/
def demoSuccessResult : TranslationResult :=
  { original := "hello".toList, translation := "你好".toList,
    status := "success".toList, error := none,
    model := some "qwen-max".toList, rtype := some "pdf_translation".toList,
    chunk_index := none, total_chunks := none, attempt := none }

/-- A concrete agent that raises on attempts 0 and 1 and succeeds on
attempt 2, used by witnesses. -/
def demoFlakyAgent : Nat → Except (List Char) TranslationResult :=
  fun j => if j < 2 then Except.error "网络异常".toList else Except.ok demoSuccessResult

/-- A concrete agent that raises on every attempt, used by witnesses. -/
def demoFailAgent : Nat → Except (List Char) TranslationResult :=
  fun _ => Except.error "网络异常".toList

/-- A concrete completion service that answers every prompt with status 200
and the text `" 译文 "`, used by witnesses. -/
def demoService : ServiceCall :=
  fun _ => Except.ok { status_code := 200, text := " 译文 ".toList, message := [] }

/-! ### Helper lemmas -/

theorem joinBlocks_cons (b : List Char) (bs : List (List Char)) :
    joinBlocks (b :: bs) = b ++ (bs.map (fun x => "\n\n".toList ++ x)).flatten := by
  induction bs generalizing b with
  | nil => simp [joinBlocks]
  | cons b2 bs ih => simp [joinBlocks, ih b2]

theorem mergeStep_eq (merged : List Char) (ir : Nat × TranslationResult) :
    mergeStep merged ir =
      (if ir.1 > 0 then merged ++ "\n\n".toList else merged) ++
        specBlock ir.1 ir.2 := by
  unfold mergeStep specBlock
  split
  · rfl
  · simp [List.append_assoc]

theorem merge_foldl_enumFrom (rs : List TranslationResult) :
    ∀ (n : Nat) (acc : List Char), 0 < n →
      (List.enumFrom n rs).foldl mergeStep acc =
      acc ++ ((List.enumFrom n rs).map
        (fun ir => "\n\n".toList ++ specBlock ir.1 ir.2)).flatten := by
  induction rs with
  | nil => intro n acc _; simp
  | cons r rs ih =>
    intro n acc hn
    simp only [List.enumFrom, List.foldl_cons, List.map_cons, List.flatten_cons]
    rw [ih (n + 1) _ (Nat.succ_pos n), mergeStep_eq, if_pos hn]
    simp [List.append_assoc]

/-- C1: the merger appends, in index order, the translation of each success
outcome and the marker-prefixed original of each failed one, with the
blank-line separator between adjacent blocks; as a function of the outcome
list it is deterministic. -/
theorem claim_C1_merge (results : List TranslationResult) :
    merge_translation_results results =
      joinBlocks (results.enum.map fun ir => specBlock ir.1 ir.2) := by
  cases results with
  | nil => rfl
  | cons r rs =>
    rw [merge_translation_results]
    show (List.enumFrom 0 (r :: rs)).foldl mergeStep [] = _
    simp only [List.enumFrom, List.foldl_cons]
    rw [merge_foldl_enumFrom rs 1 _ Nat.one_pos, mergeStep_eq]
    rw [if_neg (by omega), List.enum_cons, List.map_cons, joinBlocks_cons]
    rw [List.map_map]
    simp [Function.comp_def]

theorem retryLoop_fail_step (a : Nat → Except (List Char) TranslationResult)
    (c : List Char) (ci tot mr rem : Nat)
    (h : agentFails (a (mr - (rem + 1)))) :
    retryLoop a c ci tot mr (rem + 1) = retryLoop a c ci tot mr rem := by
  cases hx : a (mr - (rem + 1)) with
  | error e => simp [retryLoop, hx]
  | ok r =>
    have hs : ¬ r.status = "success".toList := h r hx
    simp only [retryLoop, hx]
    rw [if_neg hs]

theorem retryLoop_success_step (a : Nat → Except (List Char) TranslationResult)
    (c : List Char) (ci tot mr rem : Nat) (r : TranslationResult)
    (h : a (mr - (rem + 1)) = Except.ok r)
    (hs : r.status = "success".toList) :
    retryLoop a c ci tot mr (rem + 1) =
      { r with chunk_index := some ci, total_chunks := some tot,
               attempt := some (mr - (rem + 1) + 1) } := by
  simp [retryLoop, h, hs]

theorem retryLoop_exhaust (a : Nat → Except (List Char) TranslationResult)
    (c : List Char) (ci tot mr : Nat) :
    ∀ rem, rem ≤ mr → (∀ j, mr - rem ≤ j → j < mr → agentFails (a j)) →
      retryLoop a c ci tot mr rem = exhaustedResult c ci tot mr := by
  intro rem
  induction rem with
  | zero => intro _ _; rfl
  | succ rem ih =>
    intro hle hf
    rw [retryLoop_fail_step a c ci tot mr rem (hf _ (Nat.le_refl _) (by omega))]
    exact ih (by omega) (fun j h1 h2 => hf j (by omega) h2)

theorem retryLoop_first_success (a : Nat → Except (List Char) TranslationResult)
    (c : List Char) (ci tot mr : Nat) :
    ∀ rem, rem ≤ mr → ∀ (k : Nat) (r : TranslationResult), k < mr →
      mr - rem ≤ k → (∀ j, mr - rem ≤ j → j < k → agentFails (a j)) →
      a k = Except.ok r → r.status = "success".toList →
      retryLoop a c ci tot mr rem =
        { r with chunk_index := some ci, total_chunks := some tot,
                 attempt := some (k + 1) } := by
  intro rem
  induction rem with
  | zero => intro _ k r hk hk2 _ _ _; omega
  | succ rem ih =>
    intro hle k r hk hk2 hf hok hs
    by_cases hkeq : k = mr - (rem + 1)
    · subst hkeq
      exact retryLoop_success_step a c ci tot mr rem r hok hs
    · rw [retryLoop_fail_step a c ci tot mr rem
        (hf _ (Nat.le_refl _) (by omega))]
      exact ih (by omega) k r hk (by omega) (fun j h1 h2 => hf j (by omega) h2) hok hs

/-- C2: with maxRetries = 3, a client failing on attempts 1 and 2 and
succeeding on attempt 3 yields that success outcome with attempt = 3; a
client failing on all three attempts yields the synthetic exhausted outcome
(placeholder translation embedding the chunk index, error message naming the
retry count); and in general the loop returns at the first success, making no
further client calls (the result does not depend on the client beyond the
first successful attempt). -/
theorem claim_C2_retry (a : Nat → Except (List Char) TranslationResult)
    (chunk : List Char) (ci tot : Nat) :
    (∀ r : TranslationResult, agentFails (a 0) → agentFails (a 1) →
      a 2 = Except.ok r → r.status = "success".toList →
      translate_chunk_with_retry a 3 chunk ci tot =
        { r with chunk_index := some ci, total_chunks := some tot,
                 attempt := some 3 }) ∧
    ((∀ j, j < 3 → agentFails (a j)) →
      translate_chunk_with_retry a 3 chunk ci tot =
        exhaustedResult chunk ci tot 3) ∧
    (∀ (k : Nat) (r : TranslationResult), k < 3 →
      (∀ j, j < k → agentFails (a j)) →
      a k = Except.ok r → r.status = "success".toList →
      translate_chunk_with_retry a 3 chunk ci tot =
        { r with chunk_index := some ci, total_chunks := some tot,
                 attempt := some (k + 1) }) := by
  refine ⟨?_, ?_, ?_⟩
  · intro r h0 h1 h2 hs
    have := retryLoop_first_success a chunk ci tot 3 3 (Nat.le_refl 3) 2 r
      (by omega) (by omega)
      (fun j _ hj => by interval_cases j <;> assumption) h2 hs
    simpa [translate_chunk_with_retry] using this
  · intro hf
    have := retryLoop_exhaust a chunk ci tot 3 3 (Nat.le_refl 3)
      (fun j _ hj => hf j hj)
    simpa [translate_chunk_with_retry] using this
  · intro k r hk hf hok hs
    have := retryLoop_first_success a chunk ci tot 3 3 (Nat.le_refl 3) k r
      hk (by omega) (fun j _ hj => hf j hj) hok hs
    simpa [translate_chunk_with_retry] using this

/-- Witness for C2: the flaky demo agent (raises on attempts 0 and 1,
succeeds on attempt 2) yields its success outcome with attempt = 3. -/
theorem claim_C2_retry_witness :
    translate_chunk_with_retry demoFlakyAgent 3 "hello".toList 2 5 =
      { demoSuccessResult with chunk_index := some 2, total_chunks := some 5,
                               attempt := some 3 } :=
  (claim_C2_retry demoFlakyAgent "hello".toList 2 5).1 demoSuccessResult
    (by intro r h; simp [demoFlakyAgent] at h)
    (by intro r h; simp [demoFlakyAgent] at h)
    (by simp [demoFlakyAgent]) (by rfl)

/-- C9 (amended): every pipeline outcome carries original text, translated
text, status, chunk index and total chunks; a success outcome additionally
carries the attempt count, while the exhausted outcome carries the error
message but no attempt field, and its translation is the non-empty
placeholder rather than the empty string. -/
theorem claim_C9_outcome_fields (a : Nat → Except (List Char) TranslationResult)
    (chunk : List Char) (ci tot mr : Nat) :
    ((∀ j, j < mr → agentFails (a j)) →
      (translate_chunk_with_retry a mr chunk ci tot).original = chunk ∧
      (translate_chunk_with_retry a mr chunk ci tot).translation ≠ [] ∧
      (translate_chunk_with_retry a mr chunk ci tot).status = "error".toList ∧
      (translate_chunk_with_retry a mr chunk ci tot).error ≠ none ∧
      (translate_chunk_with_retry a mr chunk ci tot).chunk_index = some ci ∧
      (translate_chunk_with_retry a mr chunk ci tot).total_chunks = some tot ∧
      (translate_chunk_with_retry a mr chunk ci tot).attempt = none) ∧
    (∀ (k : Nat) (r : TranslationResult), k < mr →
      (∀ j, j < k → agentFails (a j)) →
      a k = Except.ok r → r.status = "success".toList →
      (translate_chunk_with_retry a mr chunk ci tot).original = r.original ∧
      (translate_chunk_with_retry a mr chunk ci tot).translation = r.translation ∧
      (translate_chunk_with_retry a mr chunk ci tot).status = "success".toList ∧
      (translate_chunk_with_retry a mr chunk ci tot).chunk_index = some ci ∧
      (translate_chunk_with_retry a mr chunk ci tot).total_chunks = some tot ∧
      (translate_chunk_with_retry a mr chunk ci tot).attempt = some (k + 1)) := by
  constructor
  · intro hf
    have he := retryLoop_exhaust a chunk ci tot mr mr (Nat.le_refl mr)
      (fun j _ hj => hf j hj)
    rw [translate_chunk_with_retry, he]
    refine ⟨rfl, ?_, rfl, by simp [exhaustedResult], rfl, rfl, rfl⟩
    simp [exhaustedResult]
  · intro k r hk hf hok hs
    have he := retryLoop_first_success a chunk ci tot mr mr (Nat.le_refl mr) k r
      hk (by omega) (fun j _ hj => hf j hj) hok hs
    rw [translate_chunk_with_retry, he]
    exact ⟨rfl, rfl, hs, rfl, rfl, rfl⟩

/-- Witness for C9 (amended): instantiated at the always-raising demo agent
with maxRetries = 2. -/
theorem claim_C9_outcome_fields_witness :
    (translate_chunk_with_retry demoFailAgent 2 "甲".toList 4 7).original = "甲".toList ∧
    (translate_chunk_with_retry demoFailAgent 2 "甲".toList 4 7).translation ≠ [] ∧
    (translate_chunk_with_retry demoFailAgent 2 "甲".toList 4 7).status = "error".toList ∧
    (translate_chunk_with_retry demoFailAgent 2 "甲".toList 4 7).error ≠ none ∧
    (translate_chunk_with_retry demoFailAgent 2 "甲".toList 4 7).chunk_index = some 4 ∧
    (translate_chunk_with_retry demoFailAgent 2 "甲".toList 4 7).total_chunks = some 7 ∧
    (translate_chunk_with_retry demoFailAgent 2 "甲".toList 4 7).attempt = none :=
  (claim_C9_outcome_fields demoFailAgent "甲".toList 4 7 2).1
    (fun j _ r h => by simp [demoFailAgent] at h)

/-- Counterexample to C9 as stated: after three failed attempts the outcome
has no `attempt` field at all, and its translated text is the non-empty
placeholder, not the empty string claimed for failures. -/
theorem claim_C9_counterexample :
    (translate_chunk_with_retry demoFailAgent 3 "hi".toList 1 1).attempt = none ∧
    (translate_chunk_with_retry demoFailAgent 3 "hi".toList 1 1).translation ≠ [] := by
  decide

/-- C3: the single-attempt translation client is a total function of the
service behavior (no failure mode escapes): a 200 response yields the success
outcome with the stripped response text, a non-200 response yields the error
outcome with the service message and empty translation, a raised exception
yields the error outcome with the exception message and empty translation,
and every outcome's status is either success or error. -/
theorem claim_C3_client (svc : ServiceCall) (text context : List Char) :
    (∀ resp : ServiceResponse,
      svc (buildPdfPrompt text context) = Except.ok resp → resp.status_code = 200 →
      translate_pdf_content svc text context =
        { original := text, translation := pyStrip resp.text,
          status := "success".toList, error := none,
          model := some "qwen-max".toList, rtype := some "pdf_translation".toList,
          chunk_index := none, total_chunks := none, attempt := none }) ∧
    (∀ resp : ServiceResponse,
      svc (buildPdfPrompt text context) = Except.ok resp → resp.status_code ≠ 200 →
      translate_pdf_content svc text context =
        { original := text, translation := [], status := "error".toList,
          error := some ("API调用失败: ".toList ++ resp.message),
          model := none, rtype := none,
          chunk_index := none, total_chunks := none, attempt := none }) ∧
    (∀ e : List Char,
      svc (buildPdfPrompt text context) = Except.error e →
      translate_pdf_content svc text context =
        { original := text, translation := [], status := "error".toList,
          error := some e, model := none, rtype := none,
          chunk_index := none, total_chunks := none, attempt := none }) ∧
    ((translate_pdf_content svc text context).status = "success".toList ∨
     (translate_pdf_content svc text context).status = "error".toList) := by
  refine ⟨?_, ?_, ?_, ?_⟩
  · intro resp h h200
    rw [translate_pdf_content, h]
    simp only [h200, if_pos]
  · intro resp h h200
    rw [translate_pdf_content, h]
    dsimp only
    rw [if_neg h200]
  · intro e h
    rw [translate_pdf_content, h]
  · rw [translate_pdf_content]
    cases svc (buildPdfPrompt text context) with
    | error e => right; rfl
    | ok resp =>
      by_cases h200 : resp.status_code = 200
      · left; dsimp only; rw [if_pos h200]
      · right; dsimp only; rw [if_neg h200]

/-- Witness for C3: the demo service answers 200 with `" 译文 "`, and the
client returns the success outcome with the stripped text `"译文"`. -/
theorem claim_C3_client_witness :
    translate_pdf_content demoService "Hi".toList [] =
      { original := "Hi".toList, translation := "译文".toList,
        status := "success".toList, error := none,
        model := some "qwen-max".toList, rtype := some "pdf_translation".toList,
        chunk_index := none, total_chunks := none, attempt := none } := by
  have h := (claim_C3_client demoService "Hi".toList []).1
    { status_code := 200, text := " 译文 ".toList, message := [] } rfl rfl
  rw [h]
  decide

theorem foldl_append_map {α β : Type} (f : α → β) :
    ∀ (l : List α) (acc : List β),
      l.foldl (fun res x => res ++ [f x]) acc = acc ++ l.map f := by
  intro l
  induction l with
  | nil => intro acc; simp
  | cons x l ih => intro acc; simp [ih]

theorem foldl_filter_map {α β : Type} (p : α → Prop) [DecidablePred p] (f : α → β) :
    ∀ (l : List α) (acc : List β),
      l.foldl (fun res x => if p x then res ++ [f x] else res) acc =
        acc ++ (l.filter (fun x => decide (p x))).map f := by
  intro l
  induction l with
  | nil => intro acc; simp
  | cons x l ih =>
    intro acc
    by_cases hx : p x <;> simp [hx, ih]

theorem translate_pdf_content_original (svc : ServiceCall) (text context : List Char) :
    (translate_pdf_content svc text context).original = text := by
  rw [translate_pdf_content]
  cases svc (buildPdfPrompt text context) with
  | error e => rfl
  | ok resp =>
    by_cases h200 : resp.status_code = 200
    · dsimp only; rw [if_pos h200]
    · dsimp only; rw [if_neg h200]

theorem translate_pdf_chunks_with_progress_eq
    (agent : Nat → Nat → Except (List Char) TranslationResult)
    (mr : Nat) (chunks : List (List Char)) :
    translate_pdf_chunks_with_progress agent mr chunks =
      chunks.enum.map (fun ic =>
        translate_chunk_with_retry (agent ic.1) mr ic.2 (ic.1 + 1) chunks.length) := by
  rw [translate_pdf_chunks_with_progress]
  exact foldl_append_map _ chunks.enum []

theorem translate_pdf_chunks_eq (svc : Nat → ServiceCall)
    (chunks : List (List Char)) (context : List Char) :
    translate_pdf_chunks svc chunks context =
      (chunks.enum.filter (fun ic => decide (pyStrip ic.2 ≠ []))).map (fun ic =>
        { translate_pdf_content (svc ic.1) ic.2 context with
            chunk_index := some (ic.1 + 1),
            total_chunks := some chunks.length }) := by
  rw [translate_pdf_chunks]
  exact foldl_filter_map _ _ chunks.enum []

/-- C6 (amended): `translate_pdf_chunks_with_progress` submits every chunk —
empty or not — and produces exactly one outcome per input chunk; only
`TranslationAgent.translate_pdf_chunks` skips empty/whitespace-only chunks
(every outcome it returns stems from a chunk with nonempty `strip()`), and
even there `total_chunks` counts all chunks, including the skipped ones. -/
theorem claim_C6_skip (agent : Nat → Nat → Except (List Char) TranslationResult)
    (mr : Nat) (chunks : List (List Char)) (svc : Nat → ServiceCall)
    (context : List Char) :
    (translate_pdf_chunks_with_progress agent mr chunks).length = chunks.length ∧
    (∀ r ∈ translate_pdf_chunks svc chunks context,
      pyStrip r.original ≠ [] ∧ r.total_chunks = some chunks.length) := by
  constructor
  · rw [translate_pdf_chunks_with_progress_eq]
    simp
  · intro r hr
    rw [translate_pdf_chunks_eq] at hr
    rcases List.mem_map.mp hr with ⟨ic, hic, hr⟩
    rcases List.mem_filter.mp hic with ⟨_, hne⟩
    subst hr
    refine ⟨?_, rfl⟩
    simpa [translate_pdf_content_original] using of_decide_eq_true hne

/-- Witness for C6 (amended): a list with one empty and one real chunk. -/
theorem claim_C6_skip_witness :
    (translate_pdf_chunks_with_progress (fun _ => demoFailAgent) 3
        [[], "x".toList]).length = 2 ∧
    (pyStrip (TranslationResult.original
        { original := "x".toList, translation := "译文".toList,
          status := "success".toList, error := none,
          model := some "qwen-max".toList, rtype := some "pdf_translation".toList,
          chunk_index := some 2, total_chunks := some 2, attempt := none }) ≠ [] ∧
      TranslationResult.total_chunks
        { original := "x".toList, translation := "译文".toList,
          status := "success".toList, error := none,
          model := some "qwen-max".toList, rtype := some "pdf_translation".toList,
          chunk_index := some 2, total_chunks := some 2, attempt := none } = some 2) :=
  ⟨(claim_C6_skip (fun _ => demoFailAgent) 3 [[], "x".toList]
      (fun _ => demoService) []).1,
   (claim_C6_skip (fun _ => demoFailAgent) 3 [[], "x".toList]
      (fun _ => demoService) []).2 _ (by decide)⟩

/-- Counterexample to C6 as stated: in the progress pipeline an empty chunk
is submitted to the retry loop (its outcome embeds the empty original) and
contributes an outcome to the result list, and the totals count it. -/
theorem claim_C6_counterexample :
    translate_pdf_chunks_with_progress (fun _ => demoFailAgent) 3 [[], "x".toList] =
      [exhaustedResult [] 1 2 3, exhaustedResult "x".toList 2 2 3] := by
  decide

/-- C8: text no longer than the chunk-size limit is returned whole as one
single chunk. -/
theorem claim_C8_small_text (text : List Char) (max_chunk_size : Nat)
    (h : text.length ≤ max_chunk_size) :
    split_text_for_translation text max_chunk_size = [text] := by
  rw [split_text_for_translation, if_pos h]

/-- Witness for C8: `"abc"` with limit 5. -/
theorem claim_C8_small_text_witness :
    split_text_for_translation "abc".toList 5 = ["abc".toList] :=
  claim_C8_small_text "abc".toList 5 (by decide)

/-! ### Strip lemmas -/

theorem dropWhile_dropWhile (p : Char → Bool) (l : List Char) :
    (l.dropWhile p).dropWhile p = l.dropWhile p := by
  induction l with
  | nil => rfl
  | cons c cs ih =>
    by_cases h : p c
    · simp [List.dropWhile_cons, h, ih]
    · simp [List.dropWhile_cons, h]

theorem not_head_of_dropWhile_eq_self (p : Char → Bool) (a : Char) (l : List Char)
    (h : (a :: l).dropWhile p = a :: l) : p a = false := by
  cases hpa : p a
  · rfl
  · exfalso
    rw [List.dropWhile_cons, if_pos hpa] at h
    have hle := (List.dropWhile_suffix (l := l) p).length_le
    rw [h] at hle
    simp at hle

theorem pyStrip_prefix (l : List Char) : pyStrip l <+: l.dropWhile isPySpace := by
  rw [pyStrip, dropWs]
  have hsuf : ((l.dropWhile isPySpace).reverse.dropWhile isPySpace) <:+
      (l.dropWhile isPySpace).reverse := List.dropWhile_suffix _
  have := List.reverse_prefix.mpr hsuf
  rwa [List.reverse_reverse] at this

theorem pyStrip_idem (l : List Char) : pyStrip (pyStrip l) = pyStrip l := by
  have h2 : (pyStrip l).reverse.dropWhile isPySpace = (pyStrip l).reverse := by
    rw [pyStrip, dropWs, List.reverse_reverse]
    exact dropWhile_dropWhile _ _
  have h1 : (pyStrip l).dropWhile isPySpace = pyStrip l := by
    rcases hS : pyStrip l with _ | ⟨a, s⟩
    · rfl
    · rcases pyStrip_prefix l with ⟨t, ht⟩
      rw [hS] at ht
      have hA : (l.dropWhile isPySpace).dropWhile isPySpace = l.dropWhile isPySpace :=
        dropWhile_dropWhile _ _
      rw [← ht] at hA
      have ha : isPySpace a = false := by
        have : ((a :: (s ++ t)).dropWhile isPySpace) = a :: (s ++ t) := by
          simpa using hA
        exact not_head_of_dropWhile_eq_self _ _ _ this
      rw [List.dropWhile_cons, ha]
      simp
  rw [pyStrip, dropWs, h1, h2, List.reverse_reverse]

theorem pyStrip_length_le (l : List Char) : (pyStrip l).length ≤ l.length := by
  rw [pyStrip, dropWs]
  calc ((l.dropWhile isPySpace).reverse.dropWhile isPySpace).reverse.length
      = ((l.dropWhile isPySpace).reverse.dropWhile isPySpace).length := by
        rw [List.length_reverse]
    _ ≤ (l.dropWhile isPySpace).reverse.length :=
        (List.dropWhile_suffix _).length_le
    _ = (l.dropWhile isPySpace).length := by rw [List.length_reverse]
    _ ≤ l.length := (List.dropWhile_suffix _).length_le

/-! ### Sentence-content preservation (C4) -/

theorem keep_of_space (c : Char) (h : isPySpace c = true) : keepChar c = false := by
  simp [keepChar, h]

theorem keep_of_term (c : Char) (h : isTerm c = true) : keepChar c = false := by
  simp [keepChar, h]

theorem filter_keep_dropWhile_space (l : List Char) :
    (l.dropWhile isPySpace).filter keepChar = l.filter keepChar := by
  induction l with
  | nil => rfl
  | cons c cs ih =>
    by_cases h : isPySpace c
    · rw [List.dropWhile_cons, if_pos h, ih, List.filter_cons,
        keep_of_space c h]
      simp
    · rw [List.dropWhile_cons, if_neg h]

theorem filter_keep_reverse (l : List Char) :
    l.reverse.filter keepChar = (l.filter keepChar).reverse := by
  induction l with
  | nil => rfl
  | cons c cs ih =>
    by_cases h : keepChar c <;>
      simp [List.filter_cons, List.filter_append, h, ih]

theorem filter_keep_pyStrip (l : List Char) :
    (pyStrip l).filter keepChar = l.filter keepChar := by
  rw [pyStrip, dropWs, filter_keep_reverse, filter_keep_dropWhile_space,
    filter_keep_reverse, List.reverse_reverse, filter_keep_dropWhile_space]

theorem pySplitAux_keep (fuel : Nat) :
    ∀ (acc l : List Char),
      ((pySplitAux fuel acc l).map (List.filter keepChar)).flatten =
        acc.reverse.filter keepChar ++ l.filter keepChar := by
  induction fuel with
  | zero =>
    intro acc l
    simp [pySplitAux, List.filter_append]
  | succ fuel ih =>
    intro acc l
    cases l with
    | nil => simp [pySplitAux]
    | cons c cs =>
      rw [pySplitAux]
      by_cases hc : isTerm c
      · rw [if_pos hc]
        simp only [List.map_cons, List.flatten_cons]
        rw [ih [] (cs.dropWhile isPySpace)]
        rw [filter_keep_dropWhile_space, List.filter_cons, keep_of_term c hc]
        simp
      · rw [if_neg hc]
        rw [ih (c :: acc) cs]
        by_cases hk : keepChar c <;>
          simp [List.filter_cons, List.filter_append, hk, List.append_assoc]

theorem pySplit_keep (l : List Char) :
    ((pySplit l).map (List.filter keepChar)).flatten = l.filter keepChar := by
  rw [pySplit, pySplitAux_keep l.length [] l]
  rfl

theorem splitStep_keep (max : Nat) (st : List (List Char) × List Char)
    (p : List Char) :
    chunkKeep (splitStep max st p).1 ++ (splitStep max st p).2.filter keepChar =
      chunkKeep st.1 ++ st.2.filter keepChar ++ p.filter keepChar := by
  simp only [splitStep]
  split
  case isTrue h =>
    have : p.filter keepChar = [] := by
      rw [← filter_keep_pyStrip, h]; rfl
    rw [this, List.append_nil]
  case isFalse h =>
    split
    case isTrue h2 =>
      simp only [chunkKeep, List.map_append, List.flatten_append, List.map_cons,
        List.map_nil, List.flatten_cons, List.flatten_nil, List.append_nil]
      rw [filter_keep_pyStrip, filter_keep_pyStrip]
    case isFalse h2 =>
      split
      case isTrue h3 =>
        rw [List.filter_append, List.filter_cons, List.filter_cons,
          keep_of_term '.' (by decide), keep_of_space ' ' (by decide),
          filter_keep_pyStrip]
        simp [List.append_assoc]
      case isFalse h3 =>
        have h3 : st.2 = [] := by
          by_contra hne; exact h3 hne
        rw [h3, filter_keep_pyStrip]
        simp

theorem foldl_splitStep_keep (max : Nat) :
    ∀ (ps : List (List Char)) (st : List (List Char) × List Char),
      chunkKeep (ps.foldl (splitStep max) st).1 ++
          (ps.foldl (splitStep max) st).2.filter keepChar =
        chunkKeep st.1 ++ st.2.filter keepChar ++
          (ps.map (List.filter keepChar)).flatten := by
  intro ps
  induction ps with
  | nil => intro st; simp
  | cons p ps ih =>
    intro st
    rw [List.foldl_cons, ih (splitStep max st p), splitStep_keep]
    simp [List.append_assoc]

/-- C4: for non-empty text over the limit, the chunks returned by `split`
preserve exactly the non-whitespace sentence content of the input, in order:
filtering out whitespace and terminator characters (which is what ignoring
the injected `". "` joiners amounts to, since sentences contain no terminator
characters) yields the same character sequence on both sides. -/
theorem claim_C4_content (text : List Char) (max_chunk_size : Nat)
    (_hne : text ≠ []) (hgt : max_chunk_size < text.length) :
    chunkKeep (split_text_for_translation text max_chunk_size) =
      text.filter keepChar := by
  rw [split_text_for_translation, if_neg (by omega)]
  have key := foldl_splitStep_keep max_chunk_size (pySplit text) ([], [])
  simp only [chunkKeep, List.map_nil, List.flatten_nil, List.filter_nil,
    List.nil_append] at key
  rw [← pySplit_keep text]
  generalize hst : (pySplit text).foldl (splitStep max_chunk_size) ([], []) = st at key ⊢
  by_cases h : st.2 = []
  · rw [if_neg (by simp [h]), ← key, h]
    simp [chunkKeep]
  · rw [if_pos h, ← key]
    simp [chunkKeep, filter_keep_pyStrip]

/-- Witness for C4: `"ab cd. ef gh. ij"` with limit 9 splits into
`["ab cd", "ef gh. ij"]`, and the kept content matches. -/
theorem claim_C4_content_witness :
    chunkKeep (split_text_for_translation "ab cd. ef gh. ij".toList 9) =
      "ab cd. ef gh. ij".toList.filter keepChar :=
  claim_C4_content "ab cd. ef gh. ij".toList 9 (by decide) (by decide)

/-! ### Empty-result characterization (C7) -/

theorem splitStep_skip (max : Nat) (st : List (List Char) × List Char)
    (p : List Char) (h : pyStrip p = []) : splitStep max st p = st := by
  simp only [splitStep]
  rw [if_pos h]

theorem foldl_splitStep_all_empty (max : Nat) :
    ∀ (ps : List (List Char)), (∀ p ∈ ps, pyStrip p = []) →
      ∀ st, ps.foldl (splitStep max) st = st := by
  intro ps
  induction ps with
  | nil => intro _ st; rfl
  | cons p ps ih =>
    intro h st
    rw [List.foldl_cons, splitStep_skip max st p (h p (List.mem_cons_self p ps))]
    exact ih (fun q hq => h q (List.mem_cons_of_mem p hq)) st

theorem splitStep_good (max : Nat) (st : List (List Char) × List Char)
    (p : List Char) (h : st.1 ≠ [] ∨ st.2 ≠ []) :
    (splitStep max st p).1 ≠ [] ∨ (splitStep max st p).2 ≠ [] := by
  simp only [splitStep]
  split
  · exact h
  · split
    · left; simp
    · split
      case isTrue h3 => right; simp [h3]
      case isFalse h3 =>
        right
        intro hcon
        exact absurd hcon (by assumption)

theorem splitStep_good_of_content (max : Nat) (st : List (List Char) × List Char)
    (p : List Char) (h : pyStrip p ≠ []) :
    (splitStep max st p).1 ≠ [] ∨ (splitStep max st p).2 ≠ [] := by
  simp only [splitStep]
  rw [if_neg h]
  split
  · right; exact h
  · split
    case isTrue h3 => right; simp [h3]
    case isFalse h3 => right; exact h

theorem foldl_splitStep_good (max : Nat) :
    ∀ (ps : List (List Char)) (st : List (List Char) × List Char),
      (st.1 ≠ [] ∨ st.2 ≠ []) →
      ((ps.foldl (splitStep max) st).1 ≠ [] ∨ (ps.foldl (splitStep max) st).2 ≠ []) := by
  intro ps
  induction ps with
  | nil => intro st h; exact h
  | cons p ps ih =>
    intro st h
    rw [List.foldl_cons]
    exact ih _ (splitStep_good max st p h)

/-- C7 (amended): `split` returns the empty list exactly when the text
exceeds the limit and every sentence piece strips to empty; in particular a
text of length at most the limit — even the empty or whitespace-only text —
always yields the single chunk `[text]`, and a longer all-terminator text
(non-whitespace content, but empty sentences) yields `[]`. -/
theorem claim_C7_empty_iff (text : List Char) (max_chunk_size : Nat) :
    split_text_for_translation text max_chunk_size = [] ↔
      (max_chunk_size < text.length ∧ ∀ p ∈ pySplit text, pyStrip p = []) := by
  by_cases hle : text.length ≤ max_chunk_size
  · rw [split_text_for_translation, if_pos hle]
    constructor
    · intro h; cases h
    · intro ⟨h, _⟩; omega
  · rw [split_text_for_translation, if_neg hle]
    constructor
    · intro hnil
      refine ⟨by omega, ?_⟩
      by_contra hcon
      push_neg at hcon
      rcases hcon with ⟨p, hp, hps⟩
      rcases List.append_of_mem hp with ⟨l1, l2, hdec⟩
      rw [hdec, List.foldl_append, List.foldl_cons] at hnil
      dsimp only at hnil
      have hgood := foldl_splitStep_good max_chunk_size l2
        (splitStep max_chunk_size (l1.foldl (splitStep max_chunk_size) ([], [])) p)
        (splitStep_good_of_content max_chunk_size _ p hps)
      by_cases hF2 : (l2.foldl (splitStep max_chunk_size)
          (splitStep max_chunk_size (l1.foldl (splitStep max_chunk_size) ([], [])) p)).2 = []
      · rw [if_neg (by simp [hF2])] at hnil
        rcases hgood with hg | hg
        · exact hg hnil
        · exact hg hF2
      · rw [if_pos hF2] at hnil
        simp at hnil
    · intro ⟨_, hall⟩
      rw [foldl_splitStep_all_empty max_chunk_size (pySplit text) hall ([], [])]
      rw [if_neg (by simp)]

/-- Witness for C7 (amended): `"...."` with limit 3 — longer than the limit,
all sentence pieces empty — yields the empty chunk list. -/
theorem claim_C7_empty_iff_witness :
    split_text_for_translation "....".toList 3 = [] :=
  (claim_C7_empty_iff "....".toList 3).mpr ⟨by decide, by decide⟩

/-- Counterexample to C7 as stated: the empty text (length ≤ limit) yields
`[""]`, not `[]`; and `"...."` (which contains non-whitespace characters)
yields `[]`, not a nonempty chunk list. -/
theorem claim_C7_counterexample :
    split_text_for_translation [] 1000 = [[]] ∧
    split_text_for_translation "....".toList 3 = [] ∧
    "....".toList.any (fun c => !(isPySpace c)) = true := by
  decide

/-! ### Chunk length bound (C10) -/

theorem splitStep_bound (max : Nat) (S : List (List Char))
    (st : List (List Char) × List Char) (p : List Char) (hp : p ∈ S)
    (h1 : ∀ ch ∈ st.1, ch.length ≤ max + 2 ∨ ∃ q ∈ S, ch = pyStrip q)
    (h2 : st.2 = [] ∨ st.2.length ≤ max + 2 ∨ ∃ q ∈ S, st.2 = pyStrip q) :
    (∀ ch ∈ (splitStep max st p).1,
        ch.length ≤ max + 2 ∨ ∃ q ∈ S, ch = pyStrip q) ∧
      ((splitStep max st p).2 = [] ∨ (splitStep max st p).2.length ≤ max + 2 ∨
        ∃ q ∈ S, (splitStep max st p).2 = pyStrip q) := by
  simp only [splitStep]
  split
  · exact ⟨h1, h2⟩
  · split
    case isTrue hov =>
      constructor
      · intro ch hch
        rcases List.mem_append.mp hch with hch | hch
        · exact h1 ch hch
        · have hch : ch = pyStrip st.2 := by simpa using hch
          subst hch
          rcases h2 with h2 | h2 | ⟨q, hq, h2⟩
          · exact absurd h2 hov.2
          · exact Or.inl (le_trans (pyStrip_length_le st.2) h2)
          · exact Or.inr ⟨q, hq, by rw [h2, pyStrip_idem]⟩
      · right; right; exact ⟨p, hp, rfl⟩
    case isFalse hov =>
      split
      case isTrue hne =>
        refine ⟨h1, Or.inr (Or.inl ?_)⟩
        have hlen : st.2.length + (pyStrip p).length ≤ max := by
          rcases Decidable.not_and_iff_or_not.mp hov with h | h
          · omega
          · exact absurd hne h
        simp only [List.length_append, List.length_cons]
        omega
      case isFalse hne =>
        exact ⟨h1, Or.inr (Or.inr ⟨p, hp, rfl⟩)⟩

theorem foldl_splitStep_bound (max : Nat) (S : List (List Char)) :
    ∀ (ps : List (List Char)) (st : List (List Char) × List Char),
      (∀ p ∈ ps, p ∈ S) →
      (∀ ch ∈ st.1, ch.length ≤ max + 2 ∨ ∃ q ∈ S, ch = pyStrip q) →
      (st.2 = [] ∨ st.2.length ≤ max + 2 ∨ ∃ q ∈ S, st.2 = pyStrip q) →
      (∀ ch ∈ (ps.foldl (splitStep max) st).1,
          ch.length ≤ max + 2 ∨ ∃ q ∈ S, ch = pyStrip q) ∧
        ((ps.foldl (splitStep max) st).2 = [] ∨
          (ps.foldl (splitStep max) st).2.length ≤ max + 2 ∨
          ∃ q ∈ S, (ps.foldl (splitStep max) st).2 = pyStrip q) := by
  intro ps
  induction ps with
  | nil => intro st _ h1 h2; exact ⟨h1, h2⟩
  | cons p ps ih =>
    intro st hsub h1 h2
    rw [List.foldl_cons]
    have hstep := splitStep_bound max S st p (hsub p (List.mem_cons_self p ps)) h1 h2
    exact ih _ (fun q hq => hsub q (List.mem_cons_of_mem p hq)) hstep.1 hstep.2

/-- C10: every chunk that `split` builds by joining at least two sentences
has length at most maxChunkSize + 2 (the overflow check ignores the
two-character `". "` joiner); equivalently, every returned chunk either obeys
that bound or is a single stripped sentence piece of the input (only such a
single-sentence chunk can exceed the bound). -/
theorem claim_C10_chunk_bound (text : List Char) (max_chunk_size : Nat)
    (c : List Char) (hc : c ∈ split_text_for_translation text max_chunk_size) :
    c.length ≤ max_chunk_size + 2 ∨ ∃ p ∈ pySplit text, c = pyStrip p := by
  rw [split_text_for_translation] at hc
  by_cases hle : text.length ≤ max_chunk_size
  · rw [if_pos hle] at hc
    have hc : c = text := by simpa using hc
    subst hc
    left; omega
  · rw [if_neg hle] at hc
    have hinv := foldl_splitStep_bound max_chunk_size (pySplit text)
      (pySplit text) ([], []) (fun p hp => hp) (by intro ch hch; cases hch)
      (Or.inl rfl)
    dsimp only at hc
    revert hc
    split
    next hne =>
      intro hc
      rcases List.mem_append.mp hc with hc | hc
      · exact hinv.1 c hc
      · have hc : c = pyStrip (((pySplit text).foldl
            (splitStep max_chunk_size) ([], [])).2) := by simpa using hc
        subst hc
        rcases hinv.2 with h | h | ⟨q, hq, h⟩
        · exact absurd h hne
        · exact Or.inl (le_trans (pyStrip_length_le _) h)
        · exact Or.inr ⟨q, hq, by rw [h, pyStrip_idem]⟩
    next hne =>
      intro hc
      exact hinv.1 c hc

/-- Witness for C10: the chunk `"ef gh. ij"` of the witness text joins two
sentences and obeys the 9 + 2 bound. -/
theorem claim_C10_chunk_bound_witness :
    ("ef gh. ij".toList.length ≤ 9 + 2 ∨
      ∃ p ∈ pySplit "ab cd. ef gh. ij".toList, "ef gh. ij".toList = pyStrip p) :=
  claim_C10_chunk_bound "ab cd. ef gh. ij".toList 9 "ef gh. ij".toList (by decide)

/-! ### Normalizer idempotence (C5) -/

theorem collapse_no_newline : ∀ (b : Bool) (l : List Char), '\n' ∉ collapseAux b l := by
  intro b l
  induction l generalizing b with
  | nil => simp [collapseAux]
  | cons c cs ih =>
    rw [collapseAux]
    split_ifs with h1 h2
    · exact ih true
    · intro hmem
      rcases List.mem_cons.mp hmem with h | h
      · exact absurd h (by decide)
      · exact ih true h
    · intro hmem
      rcases List.mem_cons.mp hmem with h | h
      · exact h1 (by rw [← h]; decide)
      · exact ih false h

theorem mem_stripPageAux :
    ∀ (fuel : Nat) (flag : Bool) (l : List Char) (x : Char),
      x ∈ stripPageAux fuel flag l → x ∈ l := by
  intro fuel
  induction fuel with
  | zero => intro flag l x h; exact h
  | succ fuel ih =>
    intro flag l x h
    cases l with
    | nil => simp [stripPageAux, stripPageGo] at h
    | cons c cs =>
      rw [stripPageAux, stripPageGo] at h
      revert h
      split
      · split
        · intro h
          exact List.mem_of_mem_drop (ih _ _ x h)
        · intro h
          rcases List.mem_cons.mp h with h | h
          · rw [h]; exact List.mem_cons_self c cs
          · exact List.mem_cons_of_mem c (ih _ _ x h)
      · intro h
        rcases List.mem_cons.mp h with h | h
        · rw [h]; exact List.mem_cons_self c cs
        · exact List.mem_cons_of_mem c (ih _ _ x h)

theorem mem_removeIsolatedAux :
    ∀ (fuel : Nat) (l : List Char) (x : Char),
      x ∈ removeIsolatedAux fuel l → x = ' ' ∨ x ∈ l := by
  intro fuel
  induction fuel with
  | zero => intro l x h; exact Or.inr h
  | succ fuel ih =>
    intro l x h
    cases l with
    | nil => simp [removeIsolatedAux, removeIsolatedGo] at h
    | cons c cs =>
      rw [removeIsolatedAux, removeIsolatedGo] at h
      cases hm : isoMatchLen (c :: cs) with
      | some k =>
        rw [hm, removeIsolatedHit] at h
        rcases List.mem_cons.mp h with h | h
        · exact Or.inl h
        · rcases ih _ x h with h | h
          · exact Or.inl h
          · exact Or.inr (List.mem_of_mem_drop h)
      | none =>
        rw [hm, removeIsolatedHit] at h
        rcases List.mem_cons.mp h with h | h
        · rw [h]; exact Or.inr (List.mem_cons_self c cs)
        · rcases ih _ x h with h | h
          · exact Or.inl h
          · exact Or.inr (List.mem_cons_of_mem c h)

theorem mem_fixParaAux :
    ∀ (fuel : Nat) (l : List Char) (x : Char),
      x ∈ fixParaAux fuel l → x ∈ l := by
  intro fuel
  induction fuel with
  | zero => intro l x h; exact h
  | succ fuel ih =>
    intro l x h
    cases l with
    | nil => simp [fixParaAux, fixParaGo] at h
    | cons c cs =>
      rw [fixParaAux, fixParaGo] at h
      revert h
      split
      next hc =>
        split
        · intro h
          rcases List.mem_cons.mp h with h | h
          · rw [h, ← hc]; exact List.mem_cons_self c cs
          · rcases List.mem_cons.mp h with h2 | h2
            · rw [h2, ← hc]; exact List.mem_cons_self c cs
            · exact List.mem_cons_of_mem c (List.mem_of_mem_drop (ih _ x h2))
        · intro h
          rcases List.mem_cons.mp h with h | h
          · rw [h]; exact List.mem_cons_self c cs
          · exact List.mem_cons_of_mem c (ih _ x h)
      next hc =>
        intro h
        rcases List.mem_cons.mp h with h | h
        · rw [h]; exact List.mem_cons_self c cs
        · exact List.mem_cons_of_mem c (ih _ x h)

theorem mem_pyStrip (l : List Char) (x : Char) (h : x ∈ pyStrip l) : x ∈ l := by
  rw [pyStrip, dropWs, List.mem_reverse] at h
  have h2 := (List.dropWhile_suffix isPySpace).sublist.subset h
  rw [List.mem_reverse] at h2
  exact (List.dropWhile_suffix isPySpace).sublist.subset h2

theorem clean_text_no_newline (x : List Char) : '\n' ∉ clean_text x := by
  rw [clean_text]
  split
  · exact List.not_mem_nil '\n'
  · intro hmem
    have h1 := mem_pyStrip _ _ hmem
    rw [fixParagraphs] at h1
    have h2 := mem_fixParaAux _ _ _ h1
    rw [removeIsolatedChars] at h2
    rcases mem_removeIsolatedAux _ _ _ h2 with h3 | h3
    · exact absurd h3 (by decide)
    · rw [stripPageNumbers] at h3
      have h4 := mem_stripPageAux _ _ _ _ h3
      exact collapse_no_newline false x h4

theorem fixParaAux_id :
    ∀ (fuel : Nat) (l : List Char), '\n' ∉ l → fixParaAux fuel l = l := by
  intro fuel
  induction fuel with
  | zero => intro l _; rfl
  | succ fuel ih =>
    intro l hl
    cases l with
    | nil => rfl
    | cons c cs =>
      have hc : ¬ c = '\n' := by
        intro h
        exact hl (by rw [h]; exact List.mem_cons_self _ _)
      rw [fixParaAux, fixParaGo, if_neg hc,
        ih cs (fun h => hl (List.mem_cons_of_mem c h))]

/-- Sufficiency half of C5 (amended): when the cleaned text is a fixed point
of the whitespace-collapse, page-number-removal and isolated-letter passes, a
second normalization changes nothing — the paragraph pass is the identity on
newline-free text and the final strip is idempotent. -/
theorem clean_text_idem_of_fixed (x : List Char)
    (h1 : collapseWs (clean_text x) = clean_text x)
    (h2 : stripPageNumbers (clean_text x) = clean_text x)
    (h3 : removeIsolatedChars (clean_text x) = clean_text x) :
    clean_text (clean_text x) = clean_text x := by
  by_cases hx : clean_text x = []
  · rw [hx]; rfl
  · have hx0 : x ≠ [] := by
      intro h
      apply hx
      rw [clean_text, if_pos h]
    rw [clean_text, if_neg hx, h1, h2, h3, fixParagraphs,
      fixParaAux_id _ _ (clean_text_no_newline x)]
    have hrep : clean_text x =
        pyStrip (fixParagraphs (removeIsolatedChars (stripPageNumbers (collapseWs x)))) := by
      rw [clean_text, if_neg hx0]
    rw [hrep, pyStrip_idem]

theorem collapseAux_length_le : ∀ (b : Bool) (l : List Char),
    (collapseAux b l).length ≤ l.length := by
  intro b l
  induction l generalizing b with
  | nil => simp [collapseAux]
  | cons c cs ih =>
    have h1 := ih true
    have h2 := ih false
    rw [collapseAux]
    split_ifs <;> simp [List.length_cons] <;> omega

theorem mem_enumFrom_fst_lt :
    ∀ (m : List Char) (n : Nat) (p : Nat × Char),
      p ∈ List.enumFrom n m → p.1 < n + m.length := by
  intro m
  induction m with
  | nil => intro n p hp; simp [List.enumFrom] at hp
  | cons c cs ih =>
    intro n p hp
    rw [List.enumFrom] at hp
    rcases List.mem_cons.mp hp with h | h
    · rw [h]; simp [List.length_cons]
    · have := ih (n + 1) p h
      simp only [List.length_cons]
      omega

theorem lastNewlineIdx_lt (m : List Char) (j : Nat)
    (h : lastNewlineIdx m = some j) : j < m.length := by
  unfold lastNewlineIdx at h
  cases hg : ((m.enum.filter (fun p => p.2 = '\n')).getLast?) with
  | none => rw [hg] at h; cases h
  | some pair =>
    rw [hg] at h
    simp only [Option.map_some'] at h
    rw [Option.some_inj] at h
    have hmem := List.mem_of_mem_getLast? (Option.mem_def.mpr hg)
    have h1 := (List.mem_filter.mp hmem).1
    rw [List.enum] at h1
    have h2 := mem_enumFrom_fst_lt m 0 pair h1
    omega

theorem pageMatchLen_pos (l : List Char) (k : Nat)
    (h : pageMatchLen l = some k) : 1 ≤ k := by
  unfold pageMatchLen at h
  dsimp only at h
  split at h
  · cases h
  · split at h
    · rw [Option.some_inj] at h
      omega
    · split at h
      · rw [Option.some_inj] at h
        omega
      · cases h

theorem isoMatchLen_bounds (l : List Char) (k : Nat)
    (h : isoMatchLen l = some k) : 2 ≤ k ∧ k ≤ l.length := by
  unfold isoMatchLen at h
  dsimp only at h
  split at h
  · cases h
  · split at h
    · cases h
    · split at h
      · split at h
        · cases h
        · rw [Option.some_inj] at h
          rename_i hw c rest heq hla ht
          have hdl : (List.drop (l.takeWhile isPySpace).length l).length =
              l.length - (l.takeWhile isPySpace).length := List.length_drop _ _
          rw [heq] at hdl
          simp only [List.length_cons] at hdl
          have hwle : (l.takeWhile isPySpace).length ≤ l.length :=
            (List.takeWhile_prefix _).length_le
          have htle : (rest.takeWhile isPySpace).length ≤ rest.length :=
            (List.takeWhile_prefix _).length_le
          omega
      · cases h

theorem stripPageAux_length_le :
    ∀ (fuel : Nat) (flag : Bool) (l : List Char),
      (stripPageAux fuel flag l).length ≤ l.length := by
  intro fuel
  induction fuel with
  | zero => intro flag l; exact Nat.le_refl _
  | succ fuel ih =>
    intro flag l
    cases l with
    | nil => simp [stripPageAux, stripPageGo]
    | cons c cs =>
      rw [stripPageAux, stripPageGo]
      split
      · split
        next k heq =>
          have hk := pageMatchLen_pos _ _ heq
          have hle := ih ((((c :: cs).take k).getLast? == some '\n')) ((c :: cs).drop k)
          have hd : ((c :: cs).drop k).length = (c :: cs).length - k :=
            List.length_drop k (c :: cs)
          simp only [List.length_cons] at hd ⊢
          omega
        next heq =>
          have hle := ih (c == '\n') cs
          simp only [List.length_cons]
          omega
      · have hle := ih (c == '\n') cs
        simp only [List.length_cons]
        omega

theorem removeIsolatedAux_length_le :
    ∀ (fuel : Nat) (l : List Char),
      (removeIsolatedAux fuel l).length ≤ l.length := by
  intro fuel
  induction fuel with
  | zero => intro l; exact Nat.le_refl _
  | succ fuel ih =>
    intro l
    cases l with
    | nil => simp [removeIsolatedAux, removeIsolatedGo]
    | cons c cs =>
      rw [removeIsolatedAux, removeIsolatedGo]
      cases hm : isoMatchLen (c :: cs) with
      | some k =>
        rw [removeIsolatedHit]
        have hk := (isoMatchLen_bounds _ _ hm).1
        have hle := ih ((c :: cs).drop k)
        have hd : ((c :: cs).drop k).length = (c :: cs).length - k :=
          List.length_drop k (c :: cs)
        simp only [List.length_cons] at hd ⊢
        omega
      | none =>
        rw [removeIsolatedHit]
        have hle := ih cs
        simp only [List.length_cons]
        omega

theorem fixParaAux_length_le :
    ∀ (fuel : Nat) (l : List Char), (fixParaAux fuel l).length ≤ l.length := by
  intro fuel
  induction fuel with
  | zero => intro l; exact Nat.le_refl _
  | succ fuel ih =>
    intro l
    cases l with
    | nil => simp [fixParaAux, fixParaGo]
    | cons c cs =>
      rw [fixParaAux, fixParaGo]
      split
      · split
        next j heq =>
          have hle := ih (cs.drop (j + 1))
          have hd : (cs.drop (j + 1)).length = cs.length - (j + 1) :=
            List.length_drop (j + 1) cs
          have hj := lastNewlineIdx_lt _ _ heq
          have hjw : (cs.takeWhile isPySpace).length ≤ cs.length :=
            (List.takeWhile_prefix _).length_le
          simp only [List.length_cons]
          omega
        next heq =>
          have hle := ih cs
          simp only [List.length_cons]
          omega
      · have hle := ih cs
        simp only [List.length_cons]
        omega

theorem stripPageAux_eq_of_length :
    ∀ (fuel : Nat) (flag : Bool) (l : List Char),
      (stripPageAux fuel flag l).length = l.length → stripPageAux fuel flag l = l := by
  intro fuel
  induction fuel with
  | zero => intro flag l _; rfl
  | succ fuel ih =>
    intro flag l hlen
    cases l with
    | nil => simp [stripPageAux, stripPageGo]
    | cons c cs =>
      rw [stripPageAux, stripPageGo] at hlen ⊢
      revert hlen
      split
      · split
        next k heq =>
          intro hlen
          exfalso
          have hk := pageMatchLen_pos _ _ heq
          have hle := stripPageAux_length_le fuel
            ((((c :: cs).take k).getLast? == some '\n')) ((c :: cs).drop k)
          have hd : ((c :: cs).drop k).length = (c :: cs).length - k :=
            List.length_drop k (c :: cs)
          simp only [List.length_cons] at hlen hd
          omega
        next heq =>
          intro hlen
          simp only [List.length_cons] at hlen
          rw [ih (c == '\n') cs (by omega)]
      · intro hlen
        simp only [List.length_cons] at hlen
        rw [ih (c == '\n') cs (by omega)]

theorem removeIsolatedAux_eq_of_length :
    ∀ (fuel : Nat) (l : List Char),
      (removeIsolatedAux fuel l).length = l.length → removeIsolatedAux fuel l = l := by
  intro fuel
  induction fuel with
  | zero => intro l _; rfl
  | succ fuel ih =>
    intro l hlen
    cases l with
    | nil => simp [removeIsolatedAux, removeIsolatedGo]
    | cons c cs =>
      rw [removeIsolatedAux, removeIsolatedGo] at hlen ⊢
      cases hm : isoMatchLen (c :: cs) with
      | some k =>
        exfalso
        rw [hm, removeIsolatedHit] at hlen
        have hk := isoMatchLen_bounds _ _ hm
        have hle := removeIsolatedAux_length_le fuel ((c :: cs).drop k)
        have hd : ((c :: cs).drop k).length = (c :: cs).length - k :=
          List.length_drop k (c :: cs)
        simp only [List.length_cons] at hlen hd hk
        omega
      | none =>
        rw [hm, removeIsolatedHit] at hlen
        rw [removeIsolatedHit]
        simp only [List.length_cons] at hlen
        rw [ih cs (by omega)]

theorem collapseAux_ws_space :
    ∀ (b : Bool) (l : List Char) (c : Char),
      c ∈ collapseAux b l → isPySpace c = true → c = ' ' := by
  intro b l
  induction l generalizing b with
  | nil => intro c hc; simp [collapseAux] at hc
  | cons d cs ih =>
    intro c hc hws
    rw [collapseAux] at hc
    revert hc
    split_ifs with h1 h2
    · intro hc; exact ih true c hc hws
    · intro hc
      rcases List.mem_cons.mp hc with h | h
      · exact h
      · exact ih true c h hws
    · intro hc
      rcases List.mem_cons.mp hc with h | h
      · rw [h] at hws; exact absurd hws (by simp [h1])
      · exact ih false c h hws

theorem clean_text_ws_space (x : List Char) :
    ∀ c ∈ clean_text x, isPySpace c = true → c = ' ' := by
  rw [clean_text]
  split
  · intro c hc; simp at hc
  · intro c hc hws
    have h1 := mem_pyStrip _ _ hc
    rw [fixParagraphs] at h1
    have h2 := mem_fixParaAux _ _ _ h1
    rw [removeIsolatedChars] at h2
    rcases mem_removeIsolatedAux _ _ _ h2 with h3 | h3
    · exact h3
    · rw [stripPageNumbers] at h3
      have h4 := mem_stripPageAux _ _ _ _ h3
      exact collapseAux_ws_space false x c h4 hws

theorem collapseAux_eq_of_length :
    ∀ (l : List Char), (∀ c ∈ l, isPySpace c = true → c = ' ') →
      ((collapseAux false l).length = l.length → collapseAux false l = l) ∧
      ((collapseAux true l).length = l.length → collapseAux true l = l) := by
  intro l
  induction l with
  | nil => intro _; exact ⟨fun _ => rfl, fun _ => rfl⟩
  | cons c cs ih =>
    intro hws
    have hcs : ∀ a ∈ cs, isPySpace a = true → a = ' ' :=
      fun a ha => hws a (List.mem_cons_of_mem c ha)
    constructor
    · intro hlen
      by_cases h1 : isPySpace c
      · have hc : c = ' ' := hws c (List.mem_cons_self c cs) h1
        rw [collapseAux, if_pos h1] at hlen ⊢
        simp only [Bool.false_eq_true, if_false, List.length_cons] at hlen ⊢
        rw [(ih hcs).2 (by omega), hc]
      · rw [collapseAux, if_neg h1] at hlen ⊢
        simp only [List.length_cons] at hlen
        rw [(ih hcs).1 (by omega)]
    · intro hlen
      by_cases h1 : isPySpace c
      · exfalso
        rw [collapseAux, if_pos h1] at hlen
        simp only [if_true, List.length_cons] at hlen
        have := collapseAux_length_le true cs
        omega
      · rw [collapseAux, if_neg h1] at hlen ⊢
        simp only [List.length_cons] at hlen
        rw [(ih hcs).1 (by omega)]

/-- Necessity half of C5 (amended): if a second normalization changes
nothing, the cleaned text is a fixed point of each of the three passes.
Every pass is length-non-increasing and any page-number or isolated-letter
match strictly shortens, so the round trip forces length equality at every
stage; length equality makes those two scanners the identity, and — since all
whitespace in cleaned text is a plain space — makes the collapse pass the
identity as well. -/
theorem clean_text_fixed_of_idem (x : List Char)
    (h : clean_text (clean_text x) = clean_text x) :
    collapseWs (clean_text x) = clean_text x ∧
    stripPageNumbers (clean_text x) = clean_text x ∧
    removeIsolatedChars (clean_text x) = clean_text x := by
  by_cases hy : clean_text x = []
  · rw [hy]
    exact ⟨rfl, rfl, rfl⟩
  · rw [clean_text, if_neg hy] at h
    have l1 := pyStrip_length_le (fixParagraphs (removeIsolatedChars
      (stripPageNumbers (collapseWs (clean_text x)))))
    have l2 : (fixParagraphs (removeIsolatedChars
        (stripPageNumbers (collapseWs (clean_text x))))).length ≤
        (removeIsolatedChars (stripPageNumbers (collapseWs (clean_text x)))).length := by
      rw [fixParagraphs]; exact fixParaAux_length_le _ _
    have l3 : (removeIsolatedChars (stripPageNumbers
        (collapseWs (clean_text x)))).length ≤
        (stripPageNumbers (collapseWs (clean_text x))).length := by
      rw [removeIsolatedChars]; exact removeIsolatedAux_length_le _ _
    have l4 : (stripPageNumbers (collapseWs (clean_text x))).length ≤
        (collapseWs (clean_text x)).length := by
      rw [stripPageNumbers]; exact stripPageAux_length_le _ _ _
    have l5 := collapseAux_length_le false (clean_text x)
    have hlen : (pyStrip (fixParagraphs (removeIsolatedChars
        (stripPageNumbers (collapseWs (clean_text x)))))).length =
        (clean_text x).length := by rw [h]
    have hcol : collapseWs (clean_text x) = clean_text x := by
      rw [collapseWs]
      exact (collapseAux_eq_of_length (clean_text x) (clean_text_ws_space x)).1
        (by rw [collapseWs] at l1 l2 l3 l4 hlen; omega)
    rw [hcol] at l1 l2 l3 l4 hlen
    have hpage : stripPageNumbers (clean_text x) = clean_text x := by
      rw [stripPageNumbers]
      exact stripPageAux_eq_of_length _ _ _
        (by rw [stripPageNumbers] at l1 l2 l3 l4 hlen; omega)
    rw [hpage] at l1 l2 l3 hlen
    have hiso : removeIsolatedChars (clean_text x) = clean_text x := by
      rw [removeIsolatedChars]
      exact removeIsolatedAux_eq_of_length _ _
        (by rw [removeIsolatedChars] at l1 l2 l3 hlen; omega)
    exact ⟨hcol, hpage, hiso⟩

/-- C5 (amended): the normalizer is deterministic, but idempotence as claimed
fails in general (see the counterexample); a second application is the
identity exactly on those inputs whose cleaned text is a fixed point of the
whitespace-collapse, page-number-removal and isolated-letter passes — when
those three passes fix the cleaned text, the paragraph pass and the final
strip are automatically the identity, and conversely a second application
that changes nothing forces all three passes to be the identity on the
cleaned text. -/
theorem claim_C5_idempotent_iff (x : List Char) :
    clean_text (clean_text x) = clean_text x ↔
      (collapseWs (clean_text x) = clean_text x ∧
       stripPageNumbers (clean_text x) = clean_text x ∧
       removeIsolatedChars (clean_text x) = clean_text x) :=
  ⟨clean_text_fixed_of_idem x,
   fun hfix => clean_text_idem_of_fixed x hfix.1 hfix.2.1 hfix.2.2⟩

/-- Witness for C5 (amended): `"hello world"` is already clean, so all three
fixed-point hypotheses hold and a second normalization changes nothing. -/
theorem claim_C5_idempotent_iff_witness :
    clean_text (clean_text "hello world".toList) = clean_text "hello world".toList :=
  (claim_C5_idempotent_iff "hello world".toList).mpr
    ⟨by decide, by decide, by decide⟩

/-- Counterexample to C5 as stated: `"a b c d"` cleans to `"a c d"` (the
isolated `b` is dropped), but cleaning again drops the now-isolated `c`,
giving `"a d"` — so `normalize(normalize(x)) ≠ normalize(x)`. -/
theorem claim_C5_counterexample :
    clean_text (clean_text "a b c d".toList) ≠ clean_text "a b c d".toList := by
  decide

end Translator
